import Mathlib

/-!
# Verification of the IdP-claims capture / projection workflows

This development gives a shallow embedding of the two Kinde workflow handlers
of this repository:

* `captureIdpClaimsWorkflow` (post-authentication trigger): filters the raw
  identity-provider claims, ensures the `idp_claims` user property exists,
  and patches a JSON snapshot of the claims onto the user.
* `handleTokensGeneration` (token-generation trigger): reads the stored
  `idp_claims` property, parses it as JSON, and adds each non-metadata entry
  to both the access-token and the ID-token custom-claim bags under an
  `idp_` prefix.

JavaScript dynamic values are modelled by the inductive type `Json`
(JSON numbers are modelled as integers; the decimal-fraction and exponent
forms of IEEE-754 doubles are outside the model).  JavaScript objects are
modelled as association lists in insertion order, with property assignment
(`obj[k] = v`) modelled by `objSet`, which overwrites in place or appends —
exactly the enumeration-order semantics of JS objects.  `JSON.stringify`
(with 2-space indentation, as the capture handler calls it) and `JSON.parse`
are embedded executably below.  The remote management API reached through
`createKindeAPI` is external to the repository; each call's outcome is an
explicit parameter, and the handlers return the trace of calls they issued
together with their normal or thrown outcome.
-/

/-- A JavaScript/JSON value.  Objects keep their fields in insertion order. -/
inductive Json where
  | null : Json
  | bool : Bool → Json
  | num : Int → Json
  | str : String → Json
  | arr : List Json → Json
  | obj : List (String × Json) → Json

/-- JS property assignment `o[k] = v`: overwrite in place if the key is
present (keeping its position), otherwise append. -/
def objSet {α : Type} : List (String × α) → String → α → List (String × α)
  | [], k, v => [(k, v)]
  | kv :: rest, k, v =>
    if kv.1 = k then (k, v) :: rest else kv :: objSet rest k v

/-- JS property read `o[k]` on an association list (first match). -/
def jsGet {α : Type} (l : List (String × α)) (k : String) : Option α :=
  (l.find? (fun kv => kv.1 == k)).map Prod.snd

/-- Build a JS object from a field list, later duplicates overwriting
earlier ones in place (the semantics of repeated assignment, and of
duplicate keys in `JSON.parse`). -/
def jsDedup {α : Type} (l : List (String × α)) : List (String × α) :=
  l.foldl (fun acc kv => objSet acc kv.1 kv.2) []

/-- JS `s.startsWith("_")`: the first character is an underscore. -/
def startsUnderscore (s : String) : Bool :=
  match s.data with
  | [] => false
  | c :: _ => c = '_'

/-- The `ignoreClaims` set of the capture workflow, in source order
(the source builds a `Set`, so the duplicate `"nonce"` entry is harmless;
membership is what matters). -/
def ignoreClaims : List String :=
  ["iss", "aud", "exp", "iat", "nbf", "jti", "azp", "nonce", "auth_time",
   "at_hash", "c_hash",
   "aio", "ver", "rh", "uti", "ipaddr",
   "nonce",
   "sid", "s_hash"]

/-- The claim-filtering loop of the capture workflow (source lines 168–178):
keep an entry iff its name is not in `ignoreClaims` and its value is neither
`null` nor `undefined`, writing the survivors into a fresh object.
Raw claim values are `Option Json`, `none` standing for JS `undefined`. -/
def filterClaims (claims : List (String × Option Json)) : List (String × Json) :=
  claims.foldl
    (fun acc kv =>
      if ignoreClaims.contains kv.1 then acc
      else
        match kv.2 with
        | none => acc
        | some Json.null => acc
        | some v => objSet acc kv.1 v)
    []

/-- The snapshot object the capture workflow serializes (source lines
168–182): the filtered claims with the `_provider` and `_last_updated`
metadata fields assigned afterwards. -/
def buildSnapshot (claims : List (String × Option Json))
    (providerName lastUpdated : String) : List (String × Json) :=
  objSet (objSet (filterClaims claims) "_provider" (Json.str providerName))
    "_last_updated" (Json.str lastUpdated)

/-! ## JSON serialization (`JSON.stringify(·, null, 2)`) -/

/-- Decimal digits of a natural number, most significant first
(fuel-structural so the kernel can evaluate it; `natDigsF (n+1) n` always
has enough fuel). -/
def natDigsF : Nat → Nat → List Char
  | 0, _ => []
  | f + 1, n =>
    if n < 10 then [Nat.digitChar n]
    else natDigsF f (n / 10) ++ [Nat.digitChar (n % 10)]

/-- Decimal digits of a natural number, most significant first. -/
def natDigs (n : Nat) : List Char := natDigsF (n + 1) n

/-- The characters `JSON.stringify` emits for an integer. -/
def intChs (i : Int) : List Char :=
  if i < 0 then '-' :: natDigs i.natAbs else natDigs i.toNat

/-- The escape `JSON.stringify` applies to one character of a string:
`"` and `\` get a backslash, the five short control escapes are used where
they exist, any other control character becomes a lowercase `\u00xx`
escape, and everything else is emitted literally. -/
def escChar (c : Char) : List Char :=
  if c = '"' then ['\\', '"']
  else if c = '\\' then ['\\', '\\']
  else if c = '\x08' then ['\\', 'b']
  else if c = '\x0c' then ['\\', 'f']
  else if c = '\n' then ['\\', 'n']
  else if c = '\r' then ['\\', 'r']
  else if c = '\t' then ['\\', 't']
  else if c.toNat < 32 then
    ['\\', 'u', '0', '0', Nat.digitChar (c.toNat / 16), Nat.digitChar (c.toNat % 16)]
  else [c]

/-- A JSON string literal: quotes around the escaped characters. -/
def quoteChs (s : String) : List Char :=
  '"' :: (s.data.map escChar).flatten ++ ['"']

/-- `n` spaces of indentation. -/
def spacesL (n : Nat) : List Char := List.replicate n ' '

mutual

/-- `JSON.stringify(v, null, 2)` at current indentation `ind`: members of
non-empty objects/arrays go one per line, indented two further spaces, with
`": "` after keys; empty containers print as `{}`/`[]`. -/
def emitVal : Nat → Json → List Char
  | _, .null => ['n', 'u', 'l', 'l']
  | _, .bool true => ['t', 'r', 'u', 'e']
  | _, .bool false => ['f', 'a', 'l', 's', 'e']
  | _, .num i => intChs i
  | _, .str s => quoteChs s
  | _, .obj [] => ['\x7b', '\x7d']
  | ind, .obj (kv :: fs) =>
      '\x7b' :: '\n' :: emitFields (ind + 2) (kv :: fs) ++
        '\n' :: spacesL ind ++ ['\x7d']
  | _, .arr [] => ['[', ']']
  | ind, .arr (x :: xs) =>
      '[' :: '\n' :: emitElems (ind + 2) (x :: xs) ++ '\n' :: spacesL ind ++ [']']

/-- The lines for the members of a non-empty object, separated by `",\n"`. -/
def emitFields : Nat → List (String × Json) → List Char
  | _, [] => []
  | ind, [kv] => spacesL ind ++ quoteChs kv.1 ++ ':' :: ' ' :: emitVal ind kv.2
  | ind, kv :: kv2 :: fs =>
      spacesL ind ++ quoteChs kv.1 ++ ':' :: ' ' :: emitVal ind kv.2 ++
        ',' :: '\n' :: emitFields ind (kv2 :: fs)

/-- The lines for the elements of a non-empty array, separated by `",\n"`. -/
def emitElems : Nat → List Json → List Char
  | _, [] => []
  | ind, [x] => spacesL ind ++ emitVal ind x
  | ind, x :: x2 :: xs =>
      spacesL ind ++ emitVal ind x ++ ',' :: '\n' :: emitElems ind (x2 :: xs)

end

/-- `JSON.stringify(v, null, 2)` as the capture workflow calls it. -/
def stringifyPretty (v : Json) : String := String.mk (emitVal 0 v)

/-! ## JSON parsing (`JSON.parse`)

Recursive-descent parser over the character list, with a fuel argument that
decreases at every recursive step so that the definition is structural (and
hence evaluates inside the kernel).  `parseJson` supplies fuel
`length + 1`, which is always sufficient because every fuel-consuming step
consumes at least one input character. -/

/-- Skip JSON whitespace (space, tab, line feed, carriage return). -/
def skipWs : List Char → List Char
  | [] => []
  | c :: r => if c = ' ' ∨ c = '\n' ∨ c = '\t' ∨ c = '\r' then skipWs r else c :: r

/-- Value of one hex digit, as `JSON.parse` accepts them in `\u` escapes. -/
def hexVal (c : Char) : Option Nat :=
  if '0' ≤ c ∧ c ≤ '9' then some (c.toNat - 48)
  else if 'a' ≤ c ∧ c ≤ 'f' then some (c.toNat - 87)
  else if 'A' ≤ c ∧ c ≤ 'F' then some (c.toNat - 55)
  else none

/-- Prepend a character to the string part of a string-parser result. -/
def consS (c : Char) : Option (List Char × List Char) → Option (List Char × List Char)
  | some (s, r) => some (c :: s, r)
  | none => none

/-- Parse the body of a JSON string literal (the opening quote already
consumed), returning the decoded characters and the remaining input.
Unescaped control characters are rejected, as `JSON.parse` rejects them. -/
def pStrBody : List Char → Option (List Char × List Char)
  | [] => none
  | c :: r =>
    if c = '"' then some ([], r)
    else if c = '\\' then
      match r with
      | [] => none
      | e :: r2 =>
        if e = '"' then consS '"' (pStrBody r2)
        else if e = '\\' then consS '\\' (pStrBody r2)
        else if e = '/' then consS '/' (pStrBody r2)
        else if e = 'b' then consS '\x08' (pStrBody r2)
        else if e = 'f' then consS '\x0c' (pStrBody r2)
        else if e = 'n' then consS '\n' (pStrBody r2)
        else if e = 'r' then consS '\r' (pStrBody r2)
        else if e = 't' then consS '\t' (pStrBody r2)
        else if e = 'u' then
          match r2 with
          | a :: b :: c2 :: d :: r3 =>
            match hexVal a, hexVal b, hexVal c2, hexVal d with
            | some x1, some x2, some x3, some x4 =>
                consS (Char.ofNat (((x1 * 16 + x2) * 16 + x3) * 16 + x4)) (pStrBody r3)
            | _, _, _, _ => none
          | _ => none
        else none
    else if c.toNat < 32 then none
    else consS c (pStrBody r)

/-- Numeric value of a run of decimal digit characters. -/
def digitsToNat (ds : List Char) : Nat :=
  ds.foldl (fun a c => a * 10 + (c.toNat - 48)) 0

/-- Parse an unsigned JSON integer: a digit run without a redundant leading
zero.  A following `.`, `e` or `E` is rejected (JSON numbers are modelled
as integers; decimal fractions and exponents are outside the model). -/
def pNumAbs (cs : List Char) : Option (Nat × List Char) :=
  match cs with
  | [] => none
  | c :: _ =>
    if c.isDigit then
      let p := List.span Char.isDigit cs
      if 1 < p.1.length ∧ p.1.headD 'x' = '0' then none
      else
        match p.2 with
        | [] => some (digitsToNat p.1, [])
        | d :: _ =>
          if d = '.' ∨ d = 'e' ∨ d = 'E' then none else some (digitsToNat p.1, p.2)
    else none

/-- Parse a JSON number (optional minus sign, then an unsigned integer). -/
def pNumber (cs : List Char) : Option (Json × List Char) :=
  match cs with
  | [] => none
  | c :: rest =>
    if c = '-' then (pNumAbs rest).map (fun p => (Json.num (-(p.1 : Int)), p.2))
    else (pNumAbs cs).map (fun p => (Json.num (p.1 : Int), p.2))

/-- Parser mode: a full value, object members (just after `{`, where `}`
is allowed), object members after a comma, array elements (just after `[`,
where `]` is allowed), or array elements after a comma. -/
inductive PMode where
  | val | mems | mems1 | elms | elms1

/-- The JSON grammar.  In `.mems`/`.mems1` modes the result is the raw
member list wrapped as `.obj`; the `{` handler in `.val` mode then applies
`jsDedup`, matching the last-duplicate-wins behavior of `JSON.parse`. -/
def pAny : Nat → PMode → List Char → Option (Json × List Char)
  | 0, _, _ => none
  | f + 1, .val, cs =>
    match skipWs cs with
    | [] => none
    | c :: r =>
      if c = '"' then
        match pStrBody r with
        | some (s, rest) => some (.str (String.mk s), rest)
        | none => none
      else if c = '\x7b' then
        match pAny f .mems r with
        | some (.obj raw, rest) => some (.obj (jsDedup raw), rest)
        | _ => none
      else if c = '[' then pAny f .elms r
      else if c = 'n' then
        match r with
        | 'u' :: 'l' :: 'l' :: rest => some (.null, rest)
        | _ => none
      else if c = 't' then
        match r with
        | 'r' :: 'u' :: 'e' :: rest => some (.bool true, rest)
        | _ => none
      else if c = 'f' then
        match r with
        | 'a' :: 'l' :: 's' :: 'e' :: rest => some (.bool false, rest)
        | _ => none
      else pNumber (c :: r)
  | f + 1, .mems, cs =>
    match skipWs cs with
    | [] => none
    | c :: r =>
      if c = '\x7d' then some (.obj [], r)
      else pAny f .mems1 cs
  | f + 1, .mems1, cs =>
    match skipWs cs with
    | [] => none
    | c :: r =>
      if c = '"' then
        match pStrBody r with
        | some (k, r1) =>
          match skipWs r1 with
          | ':' :: r2 =>
            match pAny f .val r2 with
            | some (v, r3) =>
              match skipWs r3 with
              | ',' :: r4 =>
                match pAny f .mems1 r4 with
                | some (.obj fs, r5) => some (.obj ((String.mk k, v) :: fs), r5)
                | _ => none
              | '\x7d' :: r4 => some (.obj [(String.mk k, v)], r4)
              | _ => none
            | none => none
          | _ => none
        | none => none
      else none
  | f + 1, .elms, cs =>
    match skipWs cs with
    | [] => none
    | c :: r =>
      if c = ']' then some (.arr [], r)
      else
        match pAny f .val (c :: r) with
        | some (v, r1) =>
          match skipWs r1 with
          | ',' :: r2 =>
            match pAny f .elms1 r2 with
            | some (.arr xs, r3) => some (.arr (v :: xs), r3)
            | _ => none
          | ']' :: r2 => some (.arr [v], r2)
          | _ => none
        | none => none
  | f + 1, .elms1, cs =>
    match pAny f .val cs with
    | some (v, r1) =>
      match skipWs r1 with
      | ',' :: r2 =>
        match pAny f .elms1 r2 with
        | some (.arr xs, r3) => some (.arr (v :: xs), r3)
        | _ => none
      | ']' :: r2 => some (.arr [v], r2)
      | _ => none
    | none => none

/-- `JSON.parse`: parse one value and require only whitespace after it. -/
def parseJson (s : String) : Option Json :=
  match pAny (s.data.length + 1) .val s.data with
  | some (v, rest) => if skipWs rest = [] then some v else none
  | none => none

/-! ## The capture workflow (`captureIdpClaimsWorkflow`, PostAuthentication)

The management API reached through `createKindeAPI` is an external
capability; each call's outcome is a parameter (`CaptureApi`), and the
handler records the calls it makes (`Effect`).  Per the store contract,
creating a property that already exists is a distinct non-success outcome;
the only non-success channel visible to the handler is a rejected promise,
i.e. the `catch` branch. -/

/-- `event.context?.auth?.provider` of the post-authentication event. -/
structure ProviderData where
  protocol : String
  provider : String
  /-- `provider.data?.idToken?.claims`; claim values are `Option Json`,
  `none` standing for JS `undefined`. -/
  idTokenClaims : Option (List (String × Option Json))

/-- The parts of the post-authentication event the handler reads. -/
structure CaptureEvent where
  provider : Option ProviderData
  /-- `event.context?.user?.id`. -/
  userId : Option String

/-- Outcome of `POST properties`: resolves, or rejects because the property
already exists (the race the spec discusses), or rejects otherwise. -/
inductive CreateErr where
  | alreadyExists
  | other (msg : String)

/-- One invocation's worth of management-API behavior. -/
structure CaptureApi where
  /-- `GET properties?context=usr`: rejects, or resolves with
  `response.data.properties` (`none` models a missing field, which the
  handler defaults to `[]`); properties are represented by their keys. -/
  listProps : Except String (Option (List String))
  /-- `POST properties` (creation of `idp_claims`). -/
  createProp : Except CreateErr Unit
  /-- `PATCH users/{userId}/properties`. -/
  patchProps : Except String Unit

/-- The API calls the capture handler can issue, in order.  The patch call
carries the property key and the serialized snapshot placed under it in the
`properties` envelope. -/
inductive Effect where
  | listProperties
  | createProperty (key : String)
  | patchUserProps (userId : String) (key : String) (value : String)

/-- How the capture handler can terminate abnormally (a JS `throw`). -/
inductive CaptureErr where
  /-- `throw new Error("User ID is required")`. -/
  | userIdMissing
  /-- rethrow of a failed property list. -/
  | listFailed (msg : String)
  /-- rethrow of a failed property creation. -/
  | createFailed (e : CreateErr)
  /-- rethrow of a failed user-property patch. -/
  | patchFailed (msg : String)

/-- Shallow embedding of `captureIdpClaimsWorkflow` (source lines 62–206):
returns the trace of API calls made and `none` for a normal return or
`some e` for a throw. -/
def captureIdpClaimsWorkflow (event : CaptureEvent) (api : CaptureApi)
    (now : String) : List Effect × Option CaptureErr :=
  match event.provider with
  | none => ([], none)
  | some provider =>
    if provider.protocol ≠ "oauth2" then ([], none)
    else
      match provider.idTokenClaims with
      | none => ([], none)
      | some idTokenClaims =>
        match event.userId with
        | none => ([], some .userIdMissing)
        | some userId =>
          if userId = "" then ([], some .userIdMissing)
          else
            match api.listProps with
            | .error msg => ([.listProperties], some (.listFailed msg))
            | .ok props =>
              let propertyExists := (props.getD []).contains "idp_claims"
              let trace := if propertyExists then [Effect.listProperties]
                else [Effect.listProperties, Effect.createProperty "idp_claims"]
              let afterCreate : Option CaptureErr :=
                if propertyExists then none
                else
                  match api.createProp with
                  | .error e => some (.createFailed e)
                  | .ok _ => none
              match afterCreate with
              | some e => (trace, some e)
              | none =>
                let claimsJson :=
                  stringifyPretty (.obj (buildSnapshot idTokenClaims provider.provider now))
                match api.patchProps with
                | .error msg =>
                    (trace ++ [Effect.patchUserProps userId "idp_claims" claimsJson],
                     some (.patchFailed msg))
                | .ok _ =>
                    (trace ++ [Effect.patchUserProps userId "idp_claims" claimsJson], none)

/-! ## The projection workflow (`handleTokensGeneration`, TokensGeneration) -/

/-- The parts of the token-generation event the handler reads:
`event.user?.id` and `event.context?.user?.id`. -/
structure TokensEvent where
  userId : Option String
  ctxUserId : Option String

/-- JS `a || b` on possibly-absent strings (the empty string is falsy). -/
def jsOrStr (a b : Option String) : Option String :=
  match a with
  | some s => if s = "" then b else some s
  | none => b

/-- The shape of the `GET users/{id}/properties` response the handler
probes: `propertiesResponse?.data?.properties || propertiesResponse?.properties`.
Each property contributes its `key` and (string) `value`. -/
structure PropsResponse where
  dataProperties : Option (List (String × String))
  properties : Option (List (String × String))

/-- One invocation's worth of management-API behavior for projection. -/
structure ProjApi where
  getProps : Except String PropsResponse

/-- The `userProperties` object built from the response (source lines
204–213): `data.properties || properties`, then one assignment per entry
(arrays, even empty ones, are truthy in JS, so `orElse` is `||`). -/
def projUserProps (resp : PropsResponse) : List (String × String) :=
  match resp.dataProperties.orElse (fun _ => resp.properties) with
  | some props => props.foldl (fun acc kv => objSet acc kv.1 kv.2) []
  | none => []

/-- `Object.entries` on a parsed JSON value: object fields in order; array
elements and string characters under their decimal indices; no enumerable
own properties on numbers and booleans; a TypeError (`none`) on `null`. -/
def jsEntries : Json → Option (List (String × Json))
  | .obj fs => some fs
  | .arr xs => some (xs.enum.map (fun iv => (String.mk (natDigs iv.1), iv.2)))
  | .str s => some (s.data.enum.map
      (fun ic => (String.mk (natDigs ic.1), Json.str (String.mk [ic.2]))))
  | .num _ => some []
  | .bool _ => some []
  | .null => none

/-- The claim-adding loop (source lines 240–254): skip `_`-prefixed names,
prefix the rest with `idp_`, and assign into a claim bag. -/
def projectEntries (entries : List (String × Json)) : List (String × Json) :=
  entries.foldl
    (fun acc kv =>
      if startsUnderscore kv.1 then acc
      else objSet acc ("idp_" ++ kv.1) kv.2)
    []

/-- The projection handler throws only if `Object.entries` is applied to
`null` (possible when the stored value is the JSON text `null`). -/
inductive ProjErr where
  | entriesOnNull

/-- Shallow embedding of `handleTokensGeneration` (source lines 182–263):
returns the access-token and ID-token custom-claim bags it populated
(both bags start empty and receive identical writes), or the thrown error. -/
def handleTokensGeneration (event : TokensEvent) (api : ProjApi) :
    Except ProjErr (List (String × Json) × List (String × Json)) :=
  match jsOrStr event.userId event.ctxUserId with
  | none => .ok ([], [])
  | some userId =>
    if userId = "" then .ok ([], [])
    else
      match api.getProps with
      | .error _ => .ok ([], [])
      | .ok resp =>
        let userProperties := projUserProps resp
        match jsGet userProperties "idp_claims" with
        | none => .ok ([], [])
        | some stored =>
          if stored = "" then .ok ([], [])
          else
            match parseJson stored with
            | none => .ok ([], [])
            | some idpClaims =>
              match jsEntries idpClaims with
              | none => .error .entriesOnNull
              | some entries => .ok (projectEntries entries, projectEntries entries)

/-! ## Claim C1 — "already exists" during property creation -/

/-- C1: the claim states that when the create-property call reports that
`idp_claims` already exists (a concurrent capture created it between the
list and the create), the capture handler treats this as success and still
writes the snapshot.  The code does the opposite: its `catch` rethrows any
creation failure, so the handler throws and the snapshot patch is never
issued.  This theorem evaluates the handler at exactly that race. -/
theorem capture_throws_on_already_exists_race :
    captureIdpClaimsWorkflow
      ⟨some ⟨"oauth2", "google", some [("email", some (.str "a@b.com"))]⟩, some "u1"⟩
      ⟨.ok (some []), .error .alreadyExists, .ok ()⟩ "2026-01-01T00:00:00.000Z"
      = ([.listProperties, .createProperty "idp_claims"],
         some (.createFailed .alreadyExists)) := rfl

/-! ## Claim C8 — unsupported events leave no side effects -/

/-- C8: if the provider descriptor is absent, the protocol is not
`"oauth2"`, or the raw ID-token claims are absent, the capture handler
returns normally having issued no API call at all. -/
theorem capture_no_side_effects_on_unsupported_event
    (event : CaptureEvent) (api : CaptureApi) (now : String)
    (h : event.provider = none
       ∨ (∃ p, event.provider = some p ∧ p.protocol ≠ "oauth2")
       ∨ (∃ p, event.provider = some p ∧ p.idTokenClaims = none)) :
    captureIdpClaimsWorkflow event api now = ([], none) := by
  rcases h with h | ⟨p, hp, hproto⟩ | ⟨p, hp, hclaims⟩
  · simp [captureIdpClaimsWorkflow, h]
  · simp [captureIdpClaimsWorkflow, hp, hproto]
  · by_cases hproto : p.protocol = "oauth2" <;>
      simp [captureIdpClaimsWorkflow, hp, hproto, hclaims]

theorem capture_no_side_effects_on_unsupported_event_witness :
    (CaptureEvent.mk none (some "u1")).provider = none ∧
      captureIdpClaimsWorkflow (CaptureEvent.mk none (some "u1"))
        ⟨.ok (some []), .ok (), .ok ()⟩ "T" = ([], none) :=
  ⟨rfl, capture_no_side_effects_on_unsupported_event _ _ _ (Or.inl rfl)⟩

/-! ## Claim C9 — missing user identifier fails loudly -/

/-- C9: with a supported provider and claims present but the user id absent
(or the falsy empty string), the capture handler throws
(`User ID is required`) instead of exiting silently; it has made no API
call at that point. -/
theorem capture_throws_on_missing_user_id
    (event : CaptureEvent) (api : CaptureApi) (now : String)
    (p : ProviderData) (claims : List (String × Option Json))
    (hp : event.provider = some p) (hproto : p.protocol = "oauth2")
    (hc : p.idTokenClaims = some claims)
    (hu : event.userId = none ∨ event.userId = some "") :
    captureIdpClaimsWorkflow event api now = ([], some .userIdMissing) := by
  rcases hu with hu | hu <;> simp [captureIdpClaimsWorkflow, hp, hproto, hc, hu]

theorem capture_throws_on_missing_user_id_witness :
    (CaptureEvent.mk (some ⟨"oauth2", "google", some []⟩) none).userId = none ∧
      captureIdpClaimsWorkflow (CaptureEvent.mk (some ⟨"oauth2", "google", some []⟩) none)
        ⟨.ok (some []), .ok (), .ok ()⟩ "T" = ([], some .userIdMissing) :=
  ⟨rfl, capture_throws_on_missing_user_id _ _ _ _ []
    rfl rfl rfl (Or.inl rfl)⟩

/-! ## Claim C4 — projection absorbs side-channel failures -/

/-- C4: whenever the property fetch rejects, the `idp_claims` property is
absent (or empty, hence falsy), or its value does not parse as JSON, the
projection handler returns normally and adds zero claims to both bags. -/
theorem projection_silent_on_side_channel_failure
    (event : TokensEvent) (api : ProjApi)
    (h : (∃ msg, api.getProps = .error msg)
       ∨ (∃ resp, api.getProps = .ok resp ∧
            (jsGet (projUserProps resp) "idp_claims" = none
             ∨ jsGet (projUserProps resp) "idp_claims" = some ""))
       ∨ (∃ resp s, api.getProps = .ok resp ∧
            jsGet (projUserProps resp) "idp_claims" = some s ∧ parseJson s = none)) :
    handleTokensGeneration event api = .ok ([], []) := by
  unfold handleTokensGeneration
  match huid : jsOrStr event.userId event.ctxUserId with
  | none => rfl
  | some uid =>
    by_cases hu : uid = ""
    · simp [hu]
    · rcases h with ⟨msg, hget⟩ | ⟨resp, hget, hs | hs⟩ | ⟨resp, s, hget, hs, hparse⟩
      · simp [hu, hget]
      · simp [hu, hget, hs]
      · simp [hu, hget, hs]
      · by_cases hse : s = "" <;> simp [hu, hget, hs, hse, hparse]

theorem projection_silent_on_side_channel_failure_witness :
    (ProjApi.mk (.error "network down")).getProps = .error "network down" ∧
      handleTokensGeneration ⟨some "u1", none⟩ (ProjApi.mk (.error "network down"))
        = .ok ([], []) :=
  ⟨rfl, projection_silent_on_side_channel_failure _ _
    (Or.inl ⟨"network down", rfl⟩)⟩

/-! ## Claim C7 — malformed stored JSON adds zero claims -/

/-- C7: if the stored `idp_claims` value is present but not valid JSON, the
projection handler returns normally with zero claims added to either bag. -/
theorem projection_silent_on_malformed_json
    (event : TokensEvent) (resp : PropsResponse) (s : String)
    (hs : jsGet (projUserProps resp) "idp_claims" = some s)
    (hparse : parseJson s = none) :
    handleTokensGeneration event (ProjApi.mk (.ok resp)) = .ok ([], []) := by
  unfold handleTokensGeneration
  match huid : jsOrStr event.userId event.ctxUserId with
  | none => rfl
  | some uid =>
    by_cases hu : uid = ""
    · simp [hu]
    · by_cases hse : s = "" <;> simp [hu, hs, hse, hparse]

theorem projection_silent_on_malformed_json_witness :
    jsGet (projUserProps ⟨some [("idp_claims", "not json")], none⟩) "idp_claims"
        = some "not json" ∧
      parseJson "not json" = none ∧
      handleTokensGeneration ⟨some "u1", none⟩
        (ProjApi.mk (.ok ⟨some [("idp_claims", "not json")], none⟩)) = .ok ([], []) :=
  ⟨rfl, rfl, projection_silent_on_malformed_json _ _ "not json" rfl rfl⟩

/-! ## Claim C10 — valid non-object JSON is iterated, not rejected -/

/-- C10: a stored value that parses to a JSON array (or a non-empty JSON
string) is not treated as malformed: the handler enumerates its entries as
`Object.entries` does and adds index-derived claims to both bags. -/
theorem projection_iterates_non_object_json :
    handleTokensGeneration ⟨some "u1", none⟩
        (ProjApi.mk (.ok ⟨some [("idp_claims", "[1,2]")], none⟩))
      = .ok ([("idp_0", .num 1), ("idp_1", .num 2)],
             [("idp_0", .num 1), ("idp_1", .num 2)]) ∧
    handleTokensGeneration ⟨some "u1", none⟩
        (ProjApi.mk (.ok ⟨some [("idp_claims", "\"ab\"")], none⟩))
      = .ok ([("idp_0", .str "a"), ("idp_1", .str "b")],
             [("idp_0", .str "a"), ("idp_1", .str "b")]) :=
  ⟨rfl, rfl⟩

/-! ## Association-list (JS object) lemmas -/

theorem objSet_of_not_mem {α : Type} (l : List (String × α)) (k : String) (v : α)
    (h : k ∉ l.map Prod.fst) : objSet l k v = l ++ [(k, v)] := by
  induction l with
  | nil => rfl
  | cons kv t ih =>
    simp only [List.map_cons, List.mem_cons] at h
    push_neg at h
    have hne : ¬kv.1 = k := fun hh => h.1 hh.symm
    simp only [objSet, if_neg hne, ih h.2, List.cons_append]

theorem mem_objSet {α : Type} {l : List (String × α)} {k : String} {v : α}
    {kv : String × α} (h : kv ∈ objSet l k v) : kv ∈ l ∨ kv = (k, v) := by
  induction l with
  | nil =>
    simp only [objSet, List.mem_singleton] at h
    exact Or.inr h
  | cons hd t ih =>
    by_cases hk : hd.1 = k
    · rw [objSet, if_pos hk] at h
      rcases List.mem_cons.mp h with h | h
      · exact Or.inr h
      · exact Or.inl (List.mem_cons_of_mem _ h)
    · rw [objSet, if_neg hk] at h
      rcases List.mem_cons.mp h with h | h
      · exact Or.inl (h ▸ List.mem_cons_self _ _)
      · rcases ih h with h | h
        · exact Or.inl (List.mem_cons_of_mem _ h)
        · exact Or.inr h

/-- The common step of the handlers' write loops: drop or transform the
entry with `g`, then JS-assign the survivor into the accumulator. -/
def objStep {α β : Type} (g : α → Option (String × β))
    (a : List (String × β)) (x : α) : List (String × β) :=
  match g x with
  | none => a
  | some p => objSet a p.1 p.2

/-- A generic shape shared by the three write loops of the two handlers:
folding `objSet` over a list whose (transformed) keys are distinct and
fresh appends exactly the `filterMap` of the list. -/
theorem foldl_objSet_eq_append {α β : Type} (g : α → Option (String × β))
    (key : α → String) (hg : ∀ x p, g x = some p → p.1 = key x) :
    ∀ (l : List α) (acc : List (String × β)),
      (l.map key).Nodup →
      (∀ k, k ∈ acc.map Prod.fst → k ∉ l.map key) →
      l.foldl (objStep g) acc = acc ++ l.filterMap g := by
  intro l
  induction l with
  | nil => intro acc _ _; simp
  | cons x t ih =>
    intro acc hnd hdisj
    simp only [List.map_cons, List.nodup_cons] at hnd
    match hgx : g x with
    | none =>
      simp only [List.foldl_cons, objStep, hgx]
      rw [ih acc hnd.2
        (fun k hk hmem => hdisj k hk (by simp [List.map_cons, hmem]))]
      simp [List.filterMap_cons, hgx]
    | some p =>
      have hkey := hg x p hgx
      have hnotacc : p.1 ∉ acc.map Prod.fst :=
        fun hmem => hdisj p.1 hmem (by simp [hkey])
      simp only [List.foldl_cons, objStep, hgx]
      rw [objSet_of_not_mem _ _ _ hnotacc,
        ih (acc ++ [p]) hnd.2 ?_]
      · simp [List.filterMap_cons, hgx]
      · intro k hk
        simp only [List.map_append, List.mem_append, List.map_cons,
          List.map_nil, List.mem_singleton] at hk
        rcases hk with hk | hk
        · exact fun hmem => hdisj k hk (by simp [hmem])
        · subst hk; rw [hkey]; exact hnd.1

/-- Membership bound for the same fold shape, without any distinctness
hypothesis: any entry of the result was in the accumulator or has a key
produced by the list. -/
theorem mem_foldl_objSet {α β : Type} (g : α → Option (String × β))
    (key : α → String) (hg : ∀ x p, g x = some p → p.1 = key x) :
    ∀ (l : List α) (acc : List (String × β)) (kv : String × β),
      kv ∈ l.foldl (objStep g) acc →
      kv ∈ acc ∨ kv.1 ∈ l.map key := by
  intro l
  induction l with
  | nil => intro acc kv h; exact Or.inl h
  | cons x t ih =>
    intro acc kv h
    simp only [List.foldl_cons] at h
    match hgx : g x with
    | none =>
      rw [show objStep g acc x = acc by simp [objStep, hgx]] at h
      rcases ih acc kv h with h | h
      · exact Or.inl h
      · exact Or.inr (by simp [h])
    | some p =>
      rw [show objStep g acc x = objSet acc p.1 p.2 by simp [objStep, hgx]] at h
      rcases ih (objSet acc p.1 p.2) kv h with h | h
      · rcases mem_objSet h with h | h
        · exact Or.inl h
        · exact Or.inr (by simp [h, hg x p hgx])
      · exact Or.inr (by simp [h])

/-- `filterMap` of an `if`-shaped function is a `filter` then `map`. -/
theorem filterMap_if_eq_filter_map {α β : Type} (p : α → Bool) (h : α → β) :
    ∀ l : List α,
      l.filterMap (fun x => if p x then none else some (h x))
        = (l.filter (fun x => !p x)).map h := by
  intro l
  induction l with
  | nil => rfl
  | cons x t ih =>
    by_cases hp : p x <;>
      simp [List.filterMap_cons, List.filter_cons, hp, ih]

theorem string_append_left_inj (s : String) :
    Function.Injective (fun t => s ++ t) := by
  intro t1 t2 h
  have hd : s.data ++ t1.data = s.data ++ t2.data := by
    simpa [String.data_append] using congrArg String.data h
  have h2 := List.append_cancel_left hd
  cases t1; cases t2
  exact congrArg String.mk h2

/-! ## The claim-filter loop as a `filterMap` -/

/-- What the filter loop does with one raw claim: drop names in the
exclusion set and `null`/`undefined` values, keep everything else. -/
def keepClaim (kv : String × Option Json) : Option (String × Json) :=
  if ignoreClaims.contains kv.1 then none
  else
    match kv.2 with
    | none => none
    | some Json.null => none
    | some v => some (kv.1, v)

theorem keepClaim_key (kv : String × Option Json) (p : String × Json)
    (h : keepClaim kv = some p) : p.1 = kv.1 := by
  rcases kv with ⟨k, v⟩
  unfold keepClaim at h
  by_cases hc : ignoreClaims.contains (k, v).1
  · rw [if_pos hc] at h
    exact Option.noConfusion h
  · rw [if_neg hc] at h
    cases v with
    | none => exact Option.noConfusion h
    | some j =>
      cases j with
      | null => exact Option.noConfusion h
      | bool b => injection h with h2; rw [← h2]
      | num i => injection h with h2; rw [← h2]
      | str s => injection h with h2; rw [← h2]
      | arr xs => injection h with h2; rw [← h2]
      | obj fs => injection h with h2; rw [← h2]

theorem filterClaims_eq_foldl (claims : List (String × Option Json)) :
    filterClaims claims = claims.foldl (objStep keepClaim) [] := by
  unfold filterClaims
  apply List.foldl_ext
  intro a kv _
  unfold objStep keepClaim
  by_cases hc : ignoreClaims.contains kv.1
  · rw [if_pos hc, if_pos hc]
  · rw [if_neg hc, if_neg hc]
    rcases kv with ⟨k, v⟩
    cases v with
    | none => rfl
    | some j => cases j <;> rfl

/-- With distinct raw claim names (as `Object.entries` guarantees), the
filter loop is exactly a `filterMap`. -/
theorem filterClaims_eq_filterMap (claims : List (String × Option Json))
    (hnd : (claims.map Prod.fst).Nodup) :
    filterClaims claims = claims.filterMap keepClaim := by
  rw [filterClaims_eq_foldl]
  have h0 : ∀ k, k ∈ (([] : List (String × Json)).map Prod.fst) →
      k ∉ claims.map Prod.fst := by simp
  simpa using
    foldl_objSet_eq_append keepClaim Prod.fst keepClaim_key claims [] hnd h0

theorem mem_filterClaims_key (claims : List (String × Option Json))
    (kv : String × Json) (h : kv ∈ filterClaims claims) :
    kv.1 ∈ claims.map Prod.fst := by
  rw [filterClaims_eq_foldl] at h
  rcases mem_foldl_objSet keepClaim Prod.fst keepClaim_key claims [] kv h with h | h
  · exact absurd h (List.not_mem_nil kv)
  · exact h

/-! ## Claim C3 — the claim filter -/

/-- C3: on any raw claim map (with the distinct keys JS objects guarantee),
the filter's output carries no key of the exclusion set and no `null`
value (`undefined` is unrepresentable in the output by construction), and
every other input entry reappears unchanged.  The embedding is a pure
function of its input, so the source's no-mutation property (it writes
into a fresh object) is inherent in the model. -/
theorem filterClaims_excludes_and_passes_through
    (claims : List (String × Option Json))
    (hnd : (claims.map Prod.fst).Nodup) :
    (∀ kv ∈ filterClaims claims, kv.1 ∉ ignoreClaims ∧ kv.2 ≠ Json.null) ∧
    (∀ kv ∈ claims, ∀ v, kv.2 = some v → kv.1 ∉ ignoreClaims → v ≠ Json.null →
      (kv.1, v) ∈ filterClaims claims) := by
  rw [filterClaims_eq_filterMap claims hnd]
  constructor
  · intro kv hkv
    rcases List.mem_filterMap.mp hkv with ⟨x, _, hx⟩
    rcases x with ⟨k, v⟩
    unfold keepClaim at hx
    by_cases hc : ignoreClaims.contains (k, v).1
    · rw [if_pos hc] at hx
      exact Option.noConfusion hx
    · rw [if_neg hc] at hx
      have hk : k ∉ ignoreClaims := fun hmem => hc (List.elem_iff.mpr hmem)
      cases v with
      | none => exact Option.noConfusion hx
      | some j =>
        cases j with
        | null => exact Option.noConfusion hx
        | bool b => injection hx with h2; rw [← h2]; exact ⟨hk, by simp⟩
        | num i => injection hx with h2; rw [← h2]; exact ⟨hk, by simp⟩
        | str s => injection hx with h2; rw [← h2]; exact ⟨hk, by simp⟩
        | arr xs => injection hx with h2; rw [← h2]; exact ⟨hk, by simp⟩
        | obj fs => injection hx with h2; rw [← h2]; exact ⟨hk, by simp⟩
  · intro kv hkv v hv hnotig hnotnull
    apply List.mem_filterMap.mpr
    refine ⟨kv, hkv, ?_⟩
    have hc : ¬ignoreClaims.contains kv.1 = true :=
      fun hcon => hnotig (List.elem_iff.mp hcon)
    unfold keepClaim
    rw [if_neg hc, hv]
    cases v with
    | null => exact absurd rfl hnotnull
    | bool b => rfl
    | num i => rfl
    | str s => rfl
    | arr xs => rfl
    | obj fs => rfl

theorem filterClaims_excludes_and_passes_through_witness :
    (([("iss", some (Json.str "i")), ("email", some (Json.str "e")),
        ("x", some Json.null), ("y", none)].map Prod.fst).Nodup ∧
      (∀ kv ∈ filterClaims [("iss", some (Json.str "i")), ("email", some (Json.str "e")),
          ("x", some Json.null), ("y", none)],
        kv.1 ∉ ignoreClaims ∧ kv.2 ≠ Json.null) ∧
      (∀ kv ∈ ([("iss", some (Json.str "i")), ("email", some (Json.str "e")),
          ("x", some Json.null), ("y", none)] : List (String × Option Json)),
        ∀ v, kv.2 = some v → kv.1 ∉ ignoreClaims → v ≠ Json.null →
          (kv.1, v) ∈ filterClaims [("iss", some (Json.str "i")),
            ("email", some (Json.str "e")), ("x", some Json.null), ("y", none)])) :=
  ⟨by decide,
   filterClaims_excludes_and_passes_through _ (by decide)⟩

/-! ## Claim C5 — the stored-snapshot underscore invariant -/

/-- C5 as stated is false: a raw IdP claim whose name itself begins with
`_` (and is neither in the exclusion set nor null) survives the filter and
is stored, violating the invariant that only `_provider` and
`_last_updated` may begin with the metadata prefix.  Here the raw claim
set `{_foo: "bar"}` makes the capture handler patch a snapshot whose first
key is `_foo`. -/
theorem capture_writes_underscore_key_counterexample :
    captureIdpClaimsWorkflow
        ⟨some ⟨"oauth2", "google", some [("_foo", some (.str "bar"))]⟩, some "u1"⟩
        ⟨.ok (some ["idp_claims"]), .ok (), .ok ()⟩ "2026-01-01T00:00:00.000Z"
      = ([.listProperties,
          .patchUserProps "u1" "idp_claims"
            (stringifyPretty (.obj [("_foo", .str "bar"), ("_provider", .str "google"),
                ("_last_updated", .str "2026-01-01T00:00:00.000Z")]))], none)
    ∧ startsUnderscore "_foo" = true
    ∧ "_foo" ≠ "_provider" ∧ "_foo" ≠ "_last_updated" :=
  ⟨rfl, rfl, by decide, by decide⟩

/-- C5 amended: provided no raw claim key begins with `_`, every key of the
snapshot the capture handler builds and writes is `_provider`,
`_last_updated`, or does not begin with `_`. -/
theorem snapshot_underscore_invariant
    (claims : List (String × Option Json)) (prov now : String)
    (h : ∀ kv ∈ claims, startsUnderscore kv.1 = false) :
    ∀ kv ∈ buildSnapshot claims prov now,
      kv.1 = "_provider" ∨ kv.1 = "_last_updated" ∨ startsUnderscore kv.1 = false := by
  intro kv hkv
  unfold buildSnapshot at hkv
  rcases mem_objSet hkv with hkv | hkv
  · rcases mem_objSet hkv with hkv | hkv
    · right; right
      have hk := mem_filterClaims_key claims kv hkv
      rcases List.mem_map.mp hk with ⟨x, hx, hxk⟩
      rw [← hxk]
      exact h x hx
    · left; rw [hkv]
  · right; left; rw [hkv]

theorem snapshot_underscore_invariant_witness :
    ((∀ kv ∈ ([("a", some (Json.num 1))] : List (String × Option Json)),
        startsUnderscore kv.1 = false) ∧
      ∀ kv ∈ buildSnapshot [("a", some (Json.num 1))] "google" "T",
        kv.1 = "_provider" ∨ kv.1 = "_last_updated" ∨ startsUnderscore kv.1 = false) :=
  ⟨by decide, snapshot_underscore_invariant _ "google" "T" (by decide)⟩

/-! ## Claim C2 — projection projects exactly the non-metadata fields -/

/-- What the projection loop does with one snapshot entry. -/
def keepEntry (kv : String × Json) : Option (String × Json) :=
  if startsUnderscore kv.1 then none else some ("idp_" ++ kv.1, kv.2)

theorem projectEntries_eq_foldl (entries : List (String × Json)) :
    projectEntries entries = entries.foldl (objStep keepEntry) [] := by
  unfold projectEntries
  apply List.foldl_ext
  intro a kv _
  unfold objStep keepEntry
  by_cases hu : startsUnderscore kv.1 <;> simp [hu]

/-- With distinct snapshot keys (as `JSON.parse` guarantees), the
projection loop appends exactly one `idp_`-prefixed copy of each
non-underscore entry. -/
theorem projectEntries_eq_map (entries : List (String × Json))
    (hnd : (entries.map Prod.fst).Nodup) :
    projectEntries entries
      = (entries.filter (fun kv => !startsUnderscore kv.1)).map
          (fun kv => ("idp_" ++ kv.1, kv.2)) := by
  rw [projectEntries_eq_foldl]
  have hkey : ∀ kv p, keepEntry kv = some p → p.1 = "idp_" ++ kv.1 := by
    intro kv p hp
    unfold keepEntry at hp
    by_cases hu : startsUnderscore kv.1
    · rw [if_pos hu] at hp; exact Option.noConfusion hp
    · rw [if_neg hu] at hp; injection hp with h2; rw [← h2]
  have hndk : (entries.map (fun kv => "idp_" ++ kv.1)).Nodup := by
    have : entries.map (fun kv => "idp_" ++ kv.1)
        = (entries.map Prod.fst).map (fun k => "idp_" ++ k) := by
      simp [List.map_map, Function.comp]
    rw [this]
    exact hnd.map (string_append_left_inj "idp_")
  have h0 : ∀ k, k ∈ (([] : List (String × Json)).map Prod.fst) →
      k ∉ entries.map (fun kv => "idp_" ++ kv.1) := by simp
  rw [foldl_objSet_eq_append keepEntry (fun kv => "idp_" ++ kv.1) hkey entries [] hndk h0]
  rw [show keepEntry = (fun kv : String × Json =>
      if startsUnderscore kv.1 then none else some (("idp_" ++ kv.1, kv.2))) from rfl]
  rw [filterMap_if_eq_filter_map (fun kv : String × Json => startsUnderscore kv.1)
    (fun kv : String × Json => ("idp_" ++ kv.1, kv.2)) entries]
  simp

/-- C2: whenever the projection handler reaches a stored snapshot that
parses to a JSON object with distinct keys, it adds to both token bags
exactly one `idp_`-prefixed entry per key not starting with `_`, with the
identical value, and nothing derived from a `_`-prefixed key. -/
theorem projection_adds_exactly_nonmeta_prefixed
    (event : TokensEvent) (resp : PropsResponse) (uid s : String)
    (m : List (String × Json))
    (huid : jsOrStr event.userId event.ctxUserId = some uid) (hu : uid ≠ "")
    (hs : jsGet (projUserProps resp) "idp_claims" = some s) (hse : s ≠ "")
    (hparse : parseJson s = some (.obj m))
    (hnd : (m.map Prod.fst).Nodup) :
    handleTokensGeneration event (ProjApi.mk (.ok resp))
      = .ok ((m.filter (fun kv => !startsUnderscore kv.1)).map
               (fun kv => ("idp_" ++ kv.1, kv.2)),
             (m.filter (fun kv => !startsUnderscore kv.1)).map
               (fun kv => ("idp_" ++ kv.1, kv.2))) := by
  unfold handleTokensGeneration
  rw [huid]
  simp only [if_neg hu]
  rw [hs]
  simp only [if_neg hse]
  rw [hparse]
  simp only [jsEntries]
  rw [projectEntries_eq_map m hnd]

theorem projection_adds_exactly_nonmeta_prefixed_witness :
    (parseJson "\x7b\n  \"a\": 1,\n  \"b\": \"x\",\n  \"_provider\": \"google\"\n\x7d"
        = some (.obj [("a", .num 1), ("b", .str "x"), ("_provider", .str "google")]) ∧
      handleTokensGeneration ⟨some "u1", none⟩
          (ProjApi.mk (.ok ⟨some [("idp_claims",
            "\x7b\n  \"a\": 1,\n  \"b\": \"x\",\n  \"_provider\": \"google\"\n\x7d")], none⟩))
        = .ok ([("idp_a", .num 1), ("idp_b", .str "x")],
               [("idp_a", .num 1), ("idp_b", .str "x")])) :=
  ⟨rfl,
   projection_adds_exactly_nonmeta_prefixed ⟨some "u1", none⟩
     ⟨some [("idp_claims",
       "\x7b\n  \"a\": 1,\n  \"b\": \"x\",\n  \"_provider\": \"google\"\n\x7d")], none⟩
     "u1" "\x7b\n  \"a\": 1,\n  \"b\": \"x\",\n  \"_provider\": \"google\"\n\x7d"
     [("a", .num 1), ("b", .str "x"), ("_provider", .str "google")]
     rfl (by decide) rfl (by decide) rfl (by decide)⟩

/-! ## Roundtrip, part 1: numbers -/

theorem digitChar_isDigit {d : Nat} (h : d < 10) :
    (Nat.digitChar d).isDigit = true := by
  interval_cases d <;> decide

theorem digitChar_toNat {d : Nat} (h : d < 10) :
    (Nat.digitChar d).toNat - 48 = d := by
  interval_cases d <;> decide

theorem digitChar_ne_zero {d : Nat} (h1 : d < 10) (h2 : d ≠ 0) :
    Nat.digitChar d ≠ '0' := by
  interval_cases d
  · exact absurd rfl h2
  all_goals decide

theorem isDigit_ne_minus {c : Char} (h : c.isDigit = true) : c ≠ '-' := by
  intro he; rw [he] at h; exact absurd h (by decide)

theorem natDigsF_eq_digits :
    ∀ n : Nat, ∀ f : Nat, n < f → 0 < n →
      natDigsF f n = ((Nat.digits 10 n).map Nat.digitChar).reverse := by
  intro n
  induction n using Nat.strong_induction_on with
  | _ n ih =>
    intro f hf hn
    obtain ⟨f', rfl⟩ : ∃ f', f = f' + 1 :=
      ⟨f - 1, by omega⟩
    by_cases h10 : n < 10
    · rw [natDigsF, if_pos h10, Nat.digits_def' (by norm_num : (1:ℕ) < 10) hn,
        Nat.div_eq_of_lt h10, Nat.digits_zero, Nat.mod_eq_of_lt h10]
      simp
    · have hlt : n / 10 < n := Nat.div_lt_self hn (by norm_num)
      rw [natDigsF, if_neg h10,
        ih (n / 10) hlt f' (by omega)
          (Nat.div_pos (le_of_not_lt h10) (by norm_num)),
        Nat.digits_def' (by norm_num : (1:ℕ) < 10) hn]
      simp

theorem natDigs_eq_digits (n : Nat) (hn : 0 < n) :
    natDigs n = ((Nat.digits 10 n).map Nat.digitChar).reverse :=
  natDigsF_eq_digits n (n + 1) (by omega) hn

theorem natDigs_lt_ten {n : Nat} (h : n < 10) : natDigs n = [Nat.digitChar n] := by
  rw [natDigs, natDigsF, if_pos h]

theorem natDigs_ne_nil (n : Nat) : natDigs n ≠ [] := by
  by_cases hn : n = 0
  · subst hn; decide
  · rw [natDigs_eq_digits n (Nat.pos_of_ne_zero hn)]
    simp [Nat.digits_ne_nil_iff_ne_zero, hn]

theorem natDigs_all_digit (n : Nat) : ∀ c ∈ natDigs n, c.isDigit = true := by
  by_cases hn : n = 0
  · subst hn; intro c hc
    rw [natDigs_lt_ten (by norm_num)] at hc
    simp only [List.mem_singleton] at hc
    subst hc; decide
  · rw [natDigs_eq_digits n (Nat.pos_of_ne_zero hn)]
    intro c hc
    simp only [List.mem_reverse, List.mem_map] at hc
    obtain ⟨d, hd, rfl⟩ := hc
    exact digitChar_isDigit (Nat.digits_lt_base (by norm_num) hd)

theorem natDigs_no_leading_zero (n : Nat) :
    ¬(1 < (natDigs n).length ∧ (natDigs n).headD 'x' = '0') := by
  by_cases h10 : n < 10
  · rw [natDigs_lt_ten h10]
    rintro ⟨h1, -⟩
    simp at h1
  · have hn : n ≠ 0 := by omega
    rintro ⟨-, hhead⟩
    rw [natDigs_eq_digits n (Nat.pos_of_ne_zero hn), ← List.map_reverse] at hhead
    obtain ⟨d, ds, hds⟩ : ∃ d ds, (Nat.digits 10 n).reverse = d :: ds := by
      cases hrev : (Nat.digits 10 n).reverse with
      | nil =>
        have : Nat.digits 10 n = [] := by simpa using congrArg List.reverse hrev
        exact absurd this (Nat.digits_ne_nil_iff_ne_zero.mpr hn)
      | cons a b => exact ⟨a, b, rfl⟩
    rw [hds] at hhead
    simp only [List.map_cons, List.headD_cons] at hhead
    have hdmem : d ∈ Nat.digits 10 n :=
      List.mem_reverse.mp (hds ▸ List.mem_cons_self d ds)
    have hdlt : d < 10 := Nat.digits_lt_base (by norm_num) hdmem
    have hdne : d ≠ 0 := by
      intro h0
      have hgl : (Nat.digits 10 n).getLast? = some d := by
        rw [← List.head?_reverse, hds]; rfl
      have hne : Nat.digits 10 n ≠ [] := Nat.digits_ne_nil_iff_ne_zero.mpr hn
      rw [List.getLast?_eq_getLast _ hne] at hgl
      exact Nat.getLast_digit_ne_zero 10 hn (by
        have := Option.some.inj hgl
        rw [this, h0])
    exact digitChar_ne_zero hdlt hdne hhead

theorem foldr_digitChar (l : List Nat) (hl : ∀ d ∈ l, d < 10) (acc : Nat) :
    List.foldr (fun c a => a * 10 + (c.toNat - 48)) acc (l.map Nat.digitChar)
      = acc * 10 ^ l.length + Nat.ofDigits 10 l := by
  induction l generalizing acc with
  | nil => simp [Nat.ofDigits_nil]
  | cons d t ih =>
    simp only [List.map_cons, List.foldr_cons, List.length_cons]
    rw [ih (fun x hx => hl x (List.mem_cons_of_mem _ hx)),
      digitChar_toNat (hl d (List.mem_cons_self _ _)), Nat.ofDigits_cons,
      pow_succ]
    ring

theorem digitsToNat_natDigs (n : Nat) : digitsToNat (natDigs n) = n := by
  by_cases hn : n = 0
  · subst hn; decide
  · rw [natDigs_eq_digits n (Nat.pos_of_ne_zero hn)]
    unfold digitsToNat
    rw [List.foldl_reverse, foldr_digitChar _
      (fun d hd => Nat.digits_lt_base (by norm_num) hd) 0]
    simpa using congrArg (fun x : ℕ => x) (Nat.ofDigits_digits 10 n)

theorem takeWhile_dropWhile_append {p : Char → Bool} :
    ∀ (ds rest : List Char), (∀ c ∈ ds, p c = true) →
      (∀ c, rest.head? = some c → p c = false) →
      (ds ++ rest).takeWhile p = ds ∧ (ds ++ rest).dropWhile p = rest := by
  intro ds
  induction ds with
  | nil =>
    intro rest _ h2
    cases rest with
    | nil => exact ⟨rfl, rfl⟩
    | cons r t =>
      simp [List.takeWhile_cons, List.dropWhile_cons, h2 r rfl]
  | cons d t ih =>
    intro rest h1 h2
    have hd := h1 d (List.mem_cons_self _ _)
    have iht := ih rest (fun c hc => h1 c (List.mem_cons_of_mem _ hc)) h2
    simp [List.takeWhile_cons, List.dropWhile_cons, hd, iht.1, iht.2]

/-- The boundary tokens that may legally follow an integer in our emitted
JSON (anything that is not a digit and not a fraction/exponent marker). -/
def numBoundary (cs : List Char) : Prop :=
  ∀ c, cs.head? = some c → c.isDigit = false ∧ c ≠ '.' ∧ c ≠ 'e' ∧ c ≠ 'E'

theorem pNumAbs_natDigs (n : Nat) (rest : List Char) (hb : numBoundary rest) :
    pNumAbs (natDigs n ++ rest) = some (n, rest) := by
  obtain ⟨c0, t0, h0⟩ : ∃ c0 t0, natDigs n = c0 :: t0 := by
    cases hnd : natDigs n with
    | nil => exact absurd hnd (natDigs_ne_nil n)
    | cons a b => exact ⟨a, b, rfl⟩
  have hspan : List.span Char.isDigit (natDigs n ++ rest) = (natDigs n, rest) := by
    rw [List.span_eq_take_drop]
    have h := takeWhile_dropWhile_append (natDigs n) rest (natDigs_all_digit n)
      (fun c hc => (hb c hc).1)
    rw [h.1, h.2]
  rw [h0, List.cons_append]
  have hdig : c0.isDigit = true :=
    natDigs_all_digit n c0 (h0 ▸ List.mem_cons_self _ _)
  simp only [pNumAbs]
  rw [if_pos hdig]
  simp only [← List.cons_append, ← h0, hspan]
  rw [if_neg (natDigs_no_leading_zero n)]
  cases hre : rest with
  | nil => rw [digitsToNat_natDigs]
  | cons d t =>
    have hbd := hb d (by rw [hre]; rfl)
    have : ¬(d = '.' ∨ d = 'e' ∨ d = 'E') := by
      rintro (h | h | h)
      · exact hbd.2.1 h
      · exact hbd.2.2.1 h
      · exact hbd.2.2.2 h
    show (if d = '.' ∨ d = 'e' ∨ d = 'E' then none
          else some (digitsToNat (natDigs n), d :: t)) = some (n, d :: t)
    rw [if_neg this, digitsToNat_natDigs]

theorem pNumber_intChs (i : Int) (rest : List Char) (hb : numBoundary rest) :
    pNumber (intChs i ++ rest) = some (.num i, rest) := by
  unfold intChs
  by_cases hi : i < 0
  · rw [if_pos hi, List.cons_append]
    simp only [pNumber]
    rw [if_pos trivial, pNumAbs_natDigs _ _ hb]
    simp only [Option.map_some']
    have hv : (-(i.natAbs : Int)) = i := by omega
    rw [hv]
  · rw [if_neg hi]
    obtain ⟨c0, t0, h0⟩ : ∃ c0 t0, natDigs i.toNat = c0 :: t0 := by
      cases hnd : natDigs i.toNat with
      | nil => exact absurd hnd (natDigs_ne_nil _)
      | cons a b => exact ⟨a, b, rfl⟩
    have hdig : c0.isDigit = true :=
      natDigs_all_digit _ c0 (h0 ▸ List.mem_cons_self _ _)
    rw [h0, List.cons_append]
    simp only [pNumber]
    rw [if_neg (isDigit_ne_minus hdig)]
    rw [← List.cons_append, ← h0, pNumAbs_natDigs _ _ hb]
    simp only [Option.map_some']
    have hv : ((i.toNat : Int)) = i := Int.toNat_of_nonneg (by omega)
    rw [hv]

/-! ## Roundtrip, part 2: string literals -/

theorem hexVal_digitChar {d : Nat} (h : d < 16) :
    hexVal (Nat.digitChar d) = some d := by
  interval_cases d <;> decide

theorem hexVal_zero : hexVal '0' = some 0 := rfl

theorem pStrBody_lit {c : Char} (h1 : c ≠ '"') (h2 : c ≠ '\\')
    (h3 : ¬c.toNat < 32) (r : List Char) :
    pStrBody (c :: r) = consS c (pStrBody r) := by
  rw [pStrBody.eq_def]
  simp [h1, h2, h3]

theorem pStrBody_escape :
    ∀ (cs rest : List Char),
      pStrBody ((cs.map escChar).flatten ++ '"' :: rest) = some (cs, rest) := by
  intro cs
  induction cs with
  | nil => intro rest; simp [pStrBody.eq_def]
  | cons c t ih =>
    intro rest
    simp only [List.map_cons, List.flatten_cons, List.append_assoc]
    by_cases h1 : c = '"'
    · subst h1
      simp only [escChar, if_pos rfl, List.cons_append, List.nil_append]
      rw [pStrBody.eq_def]
      simp [ih, consS]
    · by_cases h2 : c = '\\'
      · subst h2
        simp only [escChar, if_pos rfl, if_neg h1, List.cons_append, List.nil_append]
        rw [pStrBody.eq_def]
        simp [ih, consS]
      · by_cases h3 : c = '\x08'
        · subst h3
          simp only [escChar, if_pos rfl, if_neg h1, if_neg h2,
            List.cons_append, List.nil_append]
          rw [pStrBody.eq_def]
          simp [ih, consS]
        · by_cases h4 : c = '\x0c'
          · subst h4
            simp only [escChar, if_pos rfl, if_neg h1, if_neg h2, if_neg h3,
              List.cons_append, List.nil_append]
            rw [pStrBody.eq_def]
            simp [ih, consS]
          · by_cases h5 : c = '\n'
            · subst h5
              simp only [escChar, if_pos rfl, if_neg h1, if_neg h2, if_neg h3,
                if_neg h4, List.cons_append, List.nil_append]
              rw [pStrBody.eq_def]
              simp [ih, consS]
            · by_cases h6 : c = '\r'
              · subst h6
                simp only [escChar, if_pos rfl, if_neg h1, if_neg h2, if_neg h3,
                  if_neg h4, if_neg h5, List.cons_append, List.nil_append]
                rw [pStrBody.eq_def]
                simp [ih, consS]
              · by_cases h7 : c = '\t'
                · subst h7
                  simp only [escChar, if_pos rfl, if_neg h1, if_neg h2, if_neg h3,
                    if_neg h4, if_neg h5, if_neg h6, List.cons_append, List.nil_append]
                  rw [pStrBody.eq_def]
                  simp [ih, consS]
                · by_cases h8 : c.toNat < 32
                  · have hv16a : c.toNat / 16 < 16 := by omega
                    have hv16b : c.toNat % 16 < 16 := by omega
                    simp only [escChar, if_neg h1, if_neg h2, if_neg h3, if_neg h4,
                      if_neg h5, if_neg h6, if_neg h7, if_pos h8, List.cons_append,
                      List.nil_append]
                    rw [pStrBody.eq_def]
                    simp only [hexVal_zero, hexVal_digitChar hv16a,
                      hexVal_digitChar hv16b, consS, ih]
                    simp [consS, ih]
                    rw [show c.toNat / 16 * 16 + c.toNat % 16 = c.toNat by omega,
                      Char.ofNat_toNat]
                  · simp only [escChar, if_neg h1, if_neg h2, if_neg h3, if_neg h4,
                      if_neg h5, if_neg h6, if_neg h7, if_neg h8, List.cons_append,
                      List.nil_append]
                    rw [pStrBody_lit h1 h2 h8, ih]
                    rfl

/-! ## Roundtrip, part 3: whitespace and primitive values -/

theorem string_mk_data (s : String) : String.mk s.data = s := rfl

theorem skipWs_cons (c : Char) (l : List Char) :
    skipWs (c :: l)
      = if c = ' ' ∨ c = '\n' ∨ c = '\t' ∨ c = '\r' then skipWs l else c :: l := by
  rw [skipWs.eq_def]

theorem skipWs_not_ws (c : Char) (h : ¬(c = ' ' ∨ c = '\n' ∨ c = '\t' ∨ c = '\r'))
    (l : List Char) : skipWs (c :: l) = c :: l := by
  rw [skipWs_cons, if_neg h]

theorem skipWs_ws_cons (c : Char) (h : c = ' ' ∨ c = '\n' ∨ c = '\t' ∨ c = '\r')
    (l : List Char) : skipWs (c :: l) = skipWs l := by
  rw [skipWs_cons, if_pos h]

theorem skipWs_spaces (n : Nat) (l : List Char) :
    skipWs (spacesL n ++ l) = skipWs l := by
  induction n with
  | zero => rfl
  | succ m ih =>
    rw [spacesL, List.replicate_succ, List.cons_append, skipWs_cons, if_pos (by simp)]
    exact ih

/-- A value is primitive when it is `null`, a boolean, a number or a
string — the shapes the round-tripped snapshots contain. -/
def isPrim : Json → Bool
  | .null => true
  | .bool _ => true
  | .num _ => true
  | .str _ => true
  | .arr _ => false
  | .obj _ => false

theorem natDigs_head_digitChar (n : Nat) :
    ∃ d, d < 10 ∧ ∃ t0, natDigs n = Nat.digitChar d :: t0 := by
  by_cases hn : n = 0
  · subst hn
    exact ⟨0, by norm_num, [], rfl⟩
  · rw [natDigs_eq_digits n (Nat.pos_of_ne_zero hn), ← List.map_reverse]
    obtain ⟨e, es, hes⟩ : ∃ e es, (Nat.digits 10 n).reverse = e :: es := by
      cases hrev : (Nat.digits 10 n).reverse with
      | nil =>
        have : Nat.digits 10 n = [] := by simpa using congrArg List.reverse hrev
        exact absurd this (Nat.digits_ne_nil_iff_ne_zero.mpr hn)
      | cons a b => exact ⟨a, b, rfl⟩
    refine ⟨e, ?_, es.map Nat.digitChar, by rw [hes]; rfl⟩
    exact Nat.digits_lt_base (by norm_num)
      (List.mem_reverse.mp (hes ▸ List.mem_cons_self e es))

/-- Parsing a serialized primitive value consumes exactly its characters,
for any positive fuel, provided the input continues with a character that
cannot extend a number. -/
theorem pAny_val_prim (f ind : Nat) (v : Json) (hv : isPrim v = true)
    (tail : List Char) (hb : numBoundary tail) :
    pAny (f + 1) .val (emitVal ind v ++ tail) = some (v, tail) := by
  cases v with
  | arr xs => exact absurd hv (by simp [isPrim])
  | obj fs => exact absurd hv (by simp [isPrim])
  | null => exact rfl
  | bool b => cases b <;> exact rfl
  | str s =>
    show pAny (f + 1) .val (quoteChs s ++ tail) = some (.str s, tail)
    rw [show quoteChs s ++ tail
        = '"' :: ((s.data.map escChar).flatten ++ '"' :: tail) by
      simp [quoteChs]]
    have hstep : ∀ R, pAny (f + 1) PMode.val ('"' :: R)
        = (match pStrBody R with
           | some (a, rest) => some (Json.str (String.mk a), rest)
           | none => none) := fun R => rfl
    rw [hstep, pStrBody_escape s.data tail]
  | num i =>
    show pAny (f + 1) .val (intChs i ++ tail) = some (.num i, tail)
    by_cases hi : i < 0
    · have hI : intChs i = '-' :: natDigs i.natAbs := by rw [intChs, if_pos hi]
      have hstep : ∀ R, pAny (f + 1) PMode.val ('-' :: R)
          = pNumber ('-' :: R) := fun R => rfl
      rw [hI, List.cons_append, hstep, ← List.cons_append, ← hI]
      exact pNumber_intChs i tail hb
    · have hI : intChs i = natDigs i.toNat := by rw [intChs, if_neg hi]
      obtain ⟨d, hd10, t0, h0⟩ := natDigs_head_digitChar i.toNat
      have hstep : ∀ R, pAny (f + 1) PMode.val (Nat.digitChar d :: R)
          = pNumber (Nat.digitChar d :: R) := by
        interval_cases d <;> exact fun R => rfl
      rw [hI, h0, List.cons_append, hstep, ← List.cons_append, ← h0, ← hI]
      exact pNumber_intChs i tail hb

/-! ## Roundtrip, part 4: object members -/

/-- The member-parsing body of `pAny` in `.mems1` mode, on input whose
leading whitespace has already been skipped.  `pAny_mems1_eq` proves this
is exactly what `pAny` runs. -/
def pMemberBody (f : Nat) : List Char → Option (Json × List Char)
  | [] => none
  | c :: r =>
    if c = '"' then
      match pStrBody r with
      | some (k, r1) =>
        match skipWs r1 with
        | ':' :: r2 =>
          match pAny f .val r2 with
          | some (v, r3) =>
            match skipWs r3 with
            | ',' :: r4 =>
              match pAny f .mems1 r4 with
              | some (.obj fs, r5) => some (.obj ((String.mk k, v) :: fs), r5)
              | _ => none
            | '\x7d' :: r4 => some (.obj [(String.mk k, v)], r4)
            | _ => none
          | none => none
        | _ => none
      | none => none
    else none

theorem pAny_mems1_eq (f : Nat) (cs : List Char) :
    pAny (f + 1) .mems1 cs = pMemberBody f (skipWs cs) := rfl

theorem pAny_mems_eq (f : Nat) (cs : List Char)
    (h : (skipWs cs).head? ≠ some '\x7d') :
    pAny (f + 2) .mems cs = pMemberBody f (skipWs cs) := by
  have h1 : pAny (f + 2) PMode.mems cs
      = (match skipWs cs with
         | [] => none
         | c :: r => if c = '\x7d' then some (.obj [], r)
                     else pAny (f + 1) .mems1 cs) := rfl
  rw [h1, pAny_mems1_eq]
  cases hsw : skipWs cs with
  | nil => rfl
  | cons c r =>
    rw [hsw] at h
    simp only [List.head?_cons, ne_eq, Option.some.injEq] at h
    show (if c = '\x7d' then some (Json.obj [], r) else pMemberBody f (c :: r))
      = pMemberBody f (c :: r)
    rw [if_neg h]

/-- The value-parsing body of `pAny` in `.val` mode, on input whose leading
whitespace has already been skipped (`pAny_val_eq` proves the bridge). -/
def pValBody (f : Nat) : List Char → Option (Json × List Char)
  | [] => none
  | c :: r =>
    if c = '"' then
      match pStrBody r with
      | some (s, rest) => some (.str (String.mk s), rest)
      | none => none
    else if c = '\x7b' then
      match pAny f .mems r with
      | some (.obj raw, rest) => some (.obj (jsDedup raw), rest)
      | _ => none
    else if c = '[' then pAny f .elms r
    else if c = 'n' then
      match r with
      | 'u' :: 'l' :: 'l' :: rest => some (.null, rest)
      | _ => none
    else if c = 't' then
      match r with
      | 'r' :: 'u' :: 'e' :: rest => some (.bool true, rest)
      | _ => none
    else if c = 'f' then
      match r with
      | 'a' :: 'l' :: 's' :: 'e' :: rest => some (.bool false, rest)
      | _ => none
    else pNumber (c :: r)

theorem pAny_val_eq (f : Nat) (cs : List Char) :
    pAny (f + 1) .val cs = pValBody f (skipWs cs) := rfl

theorem numBoundary_cons (c : Char) (l : List Char)
    (h : c.isDigit = false ∧ c ≠ '.' ∧ c ≠ 'e' ∧ c ≠ 'E') :
    numBoundary (c :: l) := by
  intro c' hc'
  simp only [List.head?_cons, Option.some.injEq] at hc'
  subst hc'
  exact h

/-- Parsing one emitted member: key literal, colon, value; what follows
decides whether the member list continues. -/
theorem pMemberBody_step (f : Nat) (k : String) (v : Json) (X T tail : List Char)
    (hstr : pStrBody X = some (k.data, ':' :: T))
    (hval : pAny f .val T = some (v, tail)) :
    pMemberBody f ('"' :: X)
      = (match skipWs tail with
         | ',' :: r4 =>
           (match pAny f .mems1 r4 with
            | some (.obj fs, r5) => some (.obj ((k, v) :: fs), r5)
            | _ => none)
         | '\x7d' :: r4 => some (.obj [(k, v)], r4)
         | _ => none) := by
  have h0 : pMemberBody f ('"' :: X)
      = (match pStrBody X with
         | some (k2, r1') =>
           (match skipWs r1' with
            | ':' :: r2 =>
              (match pAny f .val r2 with
               | some (v2, r3) =>
                 (match skipWs r3 with
                  | ',' :: r4 =>
                    (match pAny f .mems1 r4 with
                     | some (.obj fs, r5) => some (.obj ((String.mk k2, v2) :: fs), r5)
                     | _ => none)
                  | '\x7d' :: r4 => some (.obj [(String.mk k2, v2)], r4)
                  | _ => none)
               | none => none)
            | _ => none)
         | none => none) := rfl
  rw [h0, hstr]
  have hcol : skipWs (':' :: T) = ':' :: T := skipWs_not_ws ':' (by decide) T
  simp only [hcol, hval, string_mk_data]

/-- Parsing the emitted member block of a non-empty, primitive-valued
field list consumes it exactly, given fuel at least the number of members. -/
theorem pMemberBody_emitFields :
    ∀ (fs : List (String × Json)) (f ind ind2 : Nat) (rest : List Char),
      (∀ kv ∈ fs, isPrim kv.2 = true) →
      fs ≠ [] →
      fs.length ≤ f →
      pMemberBody f
          (skipWs (emitFields ind fs ++ '\n' :: (spacesL ind2 ++ '\x7d' :: rest)))
        = some (.obj fs, rest) := by
  intro fs
  induction fs with
  | nil => intro f ind ind2 rest _ hne _; exact absurd rfl hne
  | cons kv t ih =>
    intro f ind ind2 rest hprim _ hlen
    obtain ⟨g, rfl⟩ : ∃ g, f = g + 1 :=
      ⟨f - 1, by simp only [List.length_cons] at hlen; omega⟩
    have hprimv : isPrim kv.2 = true := hprim kv (List.mem_cons_self _ _)
    cases t with
    | nil =>
      have hem : emitFields ind [kv] ++ '\n' :: (spacesL ind2 ++ '\x7d' :: rest)
          = spacesL ind ++ '"' ::
            ((kv.1.data.map escChar).flatten ++ '"' ::
              (':' :: ' ' ::
                (emitVal ind kv.2 ++ '\n' :: (spacesL ind2 ++ '\x7d' :: rest)))) := by
        rw [show emitFields ind [kv]
            = spacesL ind ++ quoteChs kv.1 ++ ':' :: ' ' :: emitVal ind kv.2 from rfl]
        simp [quoteChs, List.append_assoc]
      rw [hem, skipWs_spaces, skipWs_not_ws '"' (by decide)]
      have hval : pAny (g + 1) .val
          (' ' :: (emitVal ind kv.2 ++ '\n' :: (spacesL ind2 ++ '\x7d' :: rest)))
          = some (kv.2, '\n' :: (spacesL ind2 ++ '\x7d' :: rest)) := by
        rw [pAny_val_eq, skipWs_ws_cons ' ' (by decide), ← pAny_val_eq]
        exact pAny_val_prim g ind kv.2 hprimv
          ('\n' :: (spacesL ind2 ++ '\x7d' :: rest))
          (numBoundary_cons '\n' _ (by decide))
      rw [pMemberBody_step (g + 1) kv.1 kv.2 _ _ _ (pStrBody_escape kv.1.data _) hval]
      rw [skipWs_ws_cons '\n' (by decide), skipWs_spaces,
        skipWs_not_ws '\x7d' (by decide)]
      simp only [Prod.mk.eta]
    | cons kv2 t2 =>
      have hem : emitFields ind (kv :: kv2 :: t2) ++
            '\n' :: (spacesL ind2 ++ '\x7d' :: rest)
          = spacesL ind ++ '"' ::
            ((kv.1.data.map escChar).flatten ++ '"' ::
              (':' :: ' ' ::
                (emitVal ind kv.2 ++ ',' :: '\n' ::
                  (emitFields ind (kv2 :: t2) ++
                    '\n' :: (spacesL ind2 ++ '\x7d' :: rest))))) := by
        rw [show emitFields ind (kv :: kv2 :: t2)
            = spacesL ind ++ quoteChs kv.1 ++ ':' :: ' ' :: emitVal ind kv.2 ++
                ',' :: '\n' :: emitFields ind (kv2 :: t2) from rfl]
        simp [quoteChs, List.append_assoc]
      rw [hem, skipWs_spaces, skipWs_not_ws '"' (by decide)]
      have hval : pAny (g + 1) .val
          (' ' :: (emitVal ind kv.2 ++ ',' :: '\n' ::
            (emitFields ind (kv2 :: t2) ++ '\n' :: (spacesL ind2 ++ '\x7d' :: rest))))
          = some (kv.2, ',' :: '\n' ::
              (emitFields ind (kv2 :: t2) ++
                '\n' :: (spacesL ind2 ++ '\x7d' :: rest))) := by
        rw [pAny_val_eq, skipWs_ws_cons ' ' (by decide), ← pAny_val_eq]
        exact pAny_val_prim g ind kv.2 hprimv
          (',' :: '\n' ::
            (emitFields ind (kv2 :: t2) ++ '\n' :: (spacesL ind2 ++ '\x7d' :: rest)))
          (numBoundary_cons ',' _ (by decide))
      rw [pMemberBody_step (g + 1) kv.1 kv.2 _ _ _ (pStrBody_escape kv.1.data _) hval]
      rw [skipWs_not_ws ',' (by decide)]
      have hrec : pAny (g + 1) .mems1
          ('\n' :: (emitFields ind (kv2 :: t2) ++
            '\n' :: (spacesL ind2 ++ '\x7d' :: rest)))
          = some (.obj (kv2 :: t2), rest) := by
        rw [pAny_mems1_eq, skipWs_ws_cons '\n' (by decide)]
        exact ih g ind ind2 rest (fun x hx => hprim x (List.mem_cons_of_mem _ hx))
          (by simp) (by simp only [List.length_cons] at hlen ⊢; omega)
      simp only [hrec, Prod.mk.eta]

/-! ## Roundtrip, part 5: assembling `parseJson ∘ stringifyPretty` -/

theorem jsDedup_of_nodup {α : Type} (l : List (String × α))
    (hnd : (l.map Prod.fst).Nodup) : jsDedup l = l := by
  unfold jsDedup
  rw [show (fun (acc : List (String × α)) (kv : String × α) => objSet acc kv.1 kv.2)
      = objStep (fun kv => some kv) from funext fun a => funext fun kv => rfl]
  have hg : ∀ (x : String × α) p, (fun kv => some kv) x = some p → p.1 = x.1 := by
    intro x p h
    injection h with h
    rw [← h]
  have h := foldl_objSet_eq_append (fun kv => some kv) Prod.fst hg l [] hnd (by simp)
  rw [h]
  simp

theorem emitFields_length_ge (ind : Nat) :
    ∀ fs : List (String × Json), fs.length ≤ (emitFields ind fs).length := by
  intro fs
  induction fs with
  | nil => simp
  | cons kv t ih =>
    cases t with
    | nil =>
      rw [show emitFields ind [kv]
          = spacesL ind ++ quoteChs kv.1 ++ ':' :: ' ' :: emitVal ind kv.2 from rfl]
      simp [List.length_append]
      omega
    | cons kv2 t2 =>
      rw [show emitFields ind (kv :: kv2 :: t2)
          = spacesL ind ++ quoteChs kv.1 ++ ':' :: ' ' :: emitVal ind kv.2 ++
              ',' :: '\n' :: emitFields ind (kv2 :: t2) from rfl]
      simp only [List.length_append, List.length_cons]
      simp only [List.length_cons] at ih
      omega

theorem emitFields_head_quote (ind : Nat) (kv : String × Json)
    (fs : List (String × Json)) :
    ∃ Q, emitFields ind (kv :: fs) = spacesL ind ++ '"' :: Q := by
  cases fs with
  | nil =>
    refine ⟨(kv.1.data.map escChar).flatten ++ '"' ::
      (':' :: ' ' :: emitVal ind kv.2), ?_⟩
    rw [show emitFields ind [kv]
        = spacesL ind ++ quoteChs kv.1 ++ ':' :: ' ' :: emitVal ind kv.2 from rfl]
    simp [quoteChs, List.append_assoc]
  | cons kv2 t2 =>
    refine ⟨(kv.1.data.map escChar).flatten ++ '"' ::
      (':' :: ' ' :: (emitVal ind kv.2 ++ ',' :: '\n' :: emitFields ind (kv2 :: t2))), ?_⟩
    rw [show emitFields ind (kv :: kv2 :: t2)
        = spacesL ind ++ quoteChs kv.1 ++ ':' :: ' ' :: emitVal ind kv.2 ++
            ',' :: '\n' :: emitFields ind (kv2 :: t2) from rfl]
    simp [quoteChs, List.append_assoc]

/-- C6: `JSON.parse` of the capture workflow's `JSON.stringify(·, null, 2)`
output recovers the snapshot exactly, for every snapshot whose values are
strings, integers, booleans or null and that contains the two metadata
fields (in particular every snapshot the capture handler writes from
primitive claims). -/
theorem parse_stringify_roundtrip (m : List (String × Json))
    (hprim : ∀ kv ∈ m, isPrim kv.2 = true)
    (hnd : (m.map Prod.fst).Nodup)
    (hp : "_provider" ∈ m.map Prod.fst)
    (hl : "_last_updated" ∈ m.map Prod.fst) :
    parseJson (stringifyPretty (.obj m)) = some (.obj m) := by
  cases m with
  | nil => simp at hp
  | cons kv0 t0 =>
    have hlist : emitVal 0 (.obj (kv0 :: t0))
        = '\x7b' :: '\n' ::
            (emitFields 2 (kv0 :: t0) ++ '\n' :: (spacesL 0 ++ '\x7d' :: [])) := by
      simp [emitVal]
    rw [show stringifyPretty (.obj (kv0 :: t0))
        = String.mk (emitVal 0 (.obj (kv0 :: t0))) from rfl, hlist]
    have hfuel : (kv0 :: t0).length
        ≤ (emitFields 2 (kv0 :: t0) ++ '\n' :: (spacesL 0 ++ '\x7d' :: [])).length := by
      have h1 := emitFields_length_ge 2 (kv0 :: t0)
      simp only [List.length_append]
      omega
    have hbrace : ∀ f X, pAny (f + 1) .val ('\x7b' :: X)
        = (match pAny f .mems X with
           | some (.obj raw, rest) => some (.obj (jsDedup raw), rest)
           | _ => none) := fun f X => rfl
    obtain ⟨Q, hQ⟩ := emitFields_head_quote 2 kv0 t0
    have hhead : (skipWs ('\n' ::
        (emitFields 2 (kv0 :: t0) ++ '\n' :: (spacesL 0 ++ '\x7d' :: [])))).head?
        ≠ some '\x7d' := by
      rw [skipWs_ws_cons '\n' (by decide), hQ, List.append_assoc,
        skipWs_spaces, List.cons_append, skipWs_not_ws '"' (by decide)]
      simp
    have hmems : pAny
        ((emitFields 2 (kv0 :: t0) ++ '\n' :: (spacesL 0 ++ '\x7d' :: [])).length + 2)
        .mems ('\n' :: (emitFields 2 (kv0 :: t0) ++ '\n' :: (spacesL 0 ++ '\x7d' :: [])))
        = some (.obj (kv0 :: t0), []) := by
      rw [pAny_mems_eq _ _ hhead, skipWs_ws_cons '\n' (by decide)]
      exact pMemberBody_emitFields (kv0 :: t0) _ 2 0 [] hprim (by simp) hfuel
    have hparse : pAny
        ((String.mk ('\x7b' :: '\n' ::
          (emitFields 2 (kv0 :: t0) ++ '\n' :: (spacesL 0 ++ '\x7d' :: [])))).data.length + 1)
        .val ('\x7b' :: '\n' ::
          (emitFields 2 (kv0 :: t0) ++ '\n' :: (spacesL 0 ++ '\x7d' :: [])))
        = some (.obj (kv0 :: t0), []) := by
      rw [show (String.mk ('\x7b' :: '\n' ::
          (emitFields 2 (kv0 :: t0) ++ '\n' :: (spacesL 0 ++ '\x7d' :: [])))).data.length + 1
          = ((emitFields 2 (kv0 :: t0) ++
              '\n' :: (spacesL 0 ++ '\x7d' :: [])).length + 2) + 1 from by simp]
      rw [hbrace _ _, hmems]
      show some (Json.obj (jsDedup (kv0 :: t0)), []) = some (Json.obj (kv0 :: t0), [])
      rw [jsDedup_of_nodup _ hnd]
    show (match pAny
        ((String.mk ('\x7b' :: '\n' ::
          (emitFields 2 (kv0 :: t0) ++ '\n' :: (spacesL 0 ++ '\x7d' :: [])))).data.length + 1)
        .val ('\x7b' :: '\n' ::
          (emitFields 2 (kv0 :: t0) ++ '\n' :: (spacesL 0 ++ '\x7d' :: []))) with
      | some (v, rest) => if skipWs rest = [] then some v else none
      | none => none) = some (.obj (kv0 :: t0))
    rw [hparse]
    rfl

theorem parse_stringify_roundtrip_witness :
    ((∀ kv ∈ ([("a", Json.num 1), ("_provider", Json.str "google"),
        ("_last_updated", Json.str "2026-01-01T00:00:00.000Z")] : List (String × Json)),
        isPrim kv.2 = true) ∧
      (([("a", Json.num 1), ("_provider", Json.str "google"),
        ("_last_updated", Json.str "2026-01-01T00:00:00.000Z")] : List (String × Json)).map
          Prod.fst).Nodup ∧
      parseJson (stringifyPretty (.obj [("a", Json.num 1), ("_provider", Json.str "google"),
          ("_last_updated", Json.str "2026-01-01T00:00:00.000Z")]))
        = some (.obj [("a", Json.num 1), ("_provider", Json.str "google"),
            ("_last_updated", Json.str "2026-01-01T00:00:00.000Z")])) :=
  ⟨by decide, by decide,
   parse_stringify_roundtrip _ (by decide) (by decide) (by decide) (by decide)⟩

theorem parseJson_array_sanity : parseJson "[1,2]" = some (.arr [.num 1, .num 2]) := rfl

theorem parseJson_string_sanity : parseJson "\"ab\"" = some (.str "ab") := rfl

theorem parseJson_malformed_sanity : parseJson "not json" = none := rfl

theorem parseJson_object_sanity :
    parseJson "\x7b\n  \"a\": 1,\n  \"b\": \"x\"\n\x7d" =
      some (.obj [("a", .num 1), ("b", .str "x")]) := rfl

theorem parseJson_negative_sanity : parseJson " -12 " = some (.num (-12)) := rfl

theorem parseJson_leading_zero_sanity : parseJson "01" = none := rfl

theorem parseJson_duplicate_key_sanity : parseJson "\x7b\"a\":1,\"a\":2\x7d" = some (.obj [("a", .num 2)]) := rfl

theorem stringifyPretty_sanity :
    stringifyPretty (.obj [("a", .num 1), ("b", .str "x")]) =
      "\x7b\n  \"a\": 1,\n  \"b\": \"x\"\n\x7d" := rfl

theorem objSet_sanity : objSet [("a", (1 : Int))] "a" 2 = [("a", 2)] := rfl

theorem filterClaims_sanity :
    filterClaims [("iss", some (Json.str "i")), ("email", some (Json.str "e")),
      ("x", some Json.null), ("y", none)] = [("email", Json.str "e")] := rfl
